import Mathlib

/-!
Verification of the Helsinki GSE seminar scraper's extraction core.

A shallow embedding of `src/scraper/scraper.py` (event extraction, URL
discovery, orchestration) together with the parts of `src/scraper/models.py`
it needs.

Modelling conventions:
* Python strings are modelled as `List Char` (`Str`); the string primitives
  (`strip`, `lower`, `split`, …) are re-implemented here with the semantics
  of their Python counterparts so that everything evaluates inside the kernel.
* `requests` / network access is abstracted into oracle inputs: the functions
  that fetch pages receive the already-fetched payloads (hyperlink targets,
  sitemap `<loc>` entries, page text lines, chip texts) as arguments.
* A Python function that can raise is modelled with `Except Unit`; `.error ()`
  stands for a raised exception, caught or propagated exactly as in the source.
* An HTML page is abstracted to the data the extractor actually consumes:
  the linearized non-empty text lines, the text of the first `h1`, and the
  texts of the `span.chip` elements, each in document order.
-/

namespace HGSE

instance {ε α : Type} [DecidableEq ε] [DecidableEq α] : DecidableEq (Except ε α)
  | .ok a, .ok b =>
      if h : a = b then .isTrue (by rw [h]) else .isFalse (by simp [h])
  | .ok _, .error _ => .isFalse (by simp)
  | .error _, .ok _ => .isFalse (by simp)
  | .error e, .error f =>
      if h : e = f then .isTrue (by rw [h]) else .isFalse (by simp [h])

/-- Python strings, modelled as lists of characters. -/
abbrev Str := List Char

/-- Turn a Lean string literal into a `Str` (used for concrete inputs). -/
def str (s : String) : Str := s.toList

/-- Python `str.strip()`: remove leading and trailing whitespace. -/
def pyStrip (cs : Str) : Str :=
  ((cs.dropWhile Char.isWhitespace).reverse.dropWhile Char.isWhitespace).reverse

/-- ASCII lower-casing of one character, as Python `str.lower()` does on ASCII. -/
def lowerChar (c : Char) : Char :=
  if 'A' ≤ c && c ≤ 'Z' then Char.ofNat (c.toNat + 32) else c

/-- Python `str.lower()` (ASCII fragment). -/
def pyLower (cs : Str) : Str := cs.map lowerChar

/-- Python `s.split(sep)` for a one-character separator `sep`. -/
def splitOnChar (sep : Char) (cs : Str) : List Str :=
  match cs with
  | [] => [[]]
  | c :: rest =>
    let r := splitOnChar sep rest
    if c == sep then [] :: r
    else match r with
      | [] => [[c]]
      | g :: gs => (c :: g) :: gs

/-- Python `line.split(":", 1)[1]` under the guard `":" in line`:
everything after the first colon. -/
def afterFirstColon (cs : Str) : Str :=
  (cs.dropWhile (fun c => !(c == ':'))).drop 1

/-- Nonempty and all characters are ASCII digits: what `\d{1,}` accepts. -/
def allDigits (cs : Str) : Bool := !cs.isEmpty && cs.all Char.isDigit

/-- Numeric value of a digit string, as Python `int(...)`. -/
def digitsToNat (cs : Str) : Nat := cs.foldl (fun a c => a * 10 + (c.toNat - 48)) 0

/- ------------------------------------------------------------------ -/
/- Data model (`models.py`: `Event`; `datetime.date` / `datetime.time`) -/
/- ------------------------------------------------------------------ -/

/-- A calendar date as carried by `datetime.date` (validated at construction). -/
structure Date where
  year : Nat
  month : Nat
  day : Nat
deriving DecidableEq, Repr

/-- A time of day as carried by `datetime.time` (validated at construction). -/
structure Time where
  hour : Nat
  minute : Nat
deriving DecidableEq, Repr

/-- Gregorian leap year, as `datetime` uses. -/
def isLeapYear (y : Nat) : Bool := (y % 4 == 0 && !(y % 100 == 0)) || y % 400 == 0

/-- Number of days in a month, as `datetime` uses. -/
def daysInMonth (y m : Nat) : Nat :=
  if m == 2 then (if isLeapYear y then 29 else 28)
  else if m == 4 || m == 6 || m == 9 || m == 11 then 30
  else 31

/-- The arguments `datetime.date(year, month, day)` accepts without raising. -/
def validDate (y m d : Nat) : Bool :=
  decide (1 ≤ y) && decide (y ≤ 9999) && decide (1 ≤ m) && decide (m ≤ 12) &&
    decide (1 ≤ d) && decide (d ≤ daysInMonth y m)

/-- The arguments `datetime.time(hour, minute)` accepts without raising. -/
def validTime (h m : Nat) : Bool := decide (h ≤ 23) && decide (m ≤ 59)

/-- `models.Event` (the fields the scraper constructs). -/
structure Event where
  title : Str
  speaker : Str
  institution : Str
  date : Date
  url : Str
  start_time : Option Time
  end_time : Option Time
  location : Option Str
  description : Option Str
  categories : List Str
  organizer : Option Str
deriving DecidableEq, Repr

/- ------------------------------------------------------------------ -/
/- `scraper.py`: date and time parsing                                 -/
/- ------------------------------------------------------------------ -/

/-- The strings matched by `_parse_date`'s regular expression
`(\d{1,2})\.(\d{1,2})\.(\d{2,4})$` (anchored on both sides after
stripping), decomposed into the day, month and year digit groups. -/
def dateShapeParts (text : Str) : Option (Str × Str × Str) :=
  match splitOnChar '.' (pyStrip text) with
  | [d, m, y] =>
    if allDigits d && decide (d.length ≤ 2) && allDigits m && decide (m.length ≤ 2) &&
        allDigits y && decide (2 ≤ y.length) && decide (y.length ≤ 4)
    then some (d, m, y) else none
  | _ => none

/-- Whether a line matches `_parse_date`'s regular expression at all. -/
def matchesDateShape (text : Str) : Bool := (dateShapeParts text).isSome

/-- `scraper._parse_date`: `.ok none` when the regex does not match,
`.error ()` when `datetime.date` raises on the matched numbers. -/
def parse_date (text : Str) : Except Unit (Option Date) :=
  match dateShapeParts text with
  | none => .ok none
  | some (ds, ms, ys) =>
    let day := digitsToNat ds
    let month := digitsToNat ms
    let year0 := digitsToNat ys
    let year := if year0 < 100 then year0 + 2000 else year0
    if validDate year month day then .ok (some ⟨year, month, day⟩) else .error ()

/-- The strings matched by `_parse_time`'s regular expression
`(\d{1,2}):(\d{2})$`, decomposed into the hour and minute digit groups. -/
def timeShapeParts (text : Str) : Option (Str × Str) :=
  match splitOnChar ':' (pyStrip text) with
  | [h, m] =>
    if allDigits h && decide (h.length ≤ 2) && allDigits m && decide (m.length == 2)
    then some (h, m) else none
  | _ => none

/-- `scraper._parse_time`: `.ok none` when the regex does not match,
`.error ()` when `datetime.time` raises on the matched numbers. -/
def parse_time (text : Str) : Except Unit (Option Time) :=
  match timeShapeParts text with
  | none => .ok none
  | some (hs, ms) =>
    let h := digitsToNat hs
    let m := digitsToNat ms
    if validTime h m then .ok (some ⟨h, m⟩) else .error ()


/- ------------------------------------------------------------------ -/
/- `scraper.py`: `_get_field_after` and the extraction heuristics      -/
/- ------------------------------------------------------------------ -/

/-- `scraper._get_field_after`: find the first line starting
(case-insensitively) with `label`; an inline value after the colon wins,
otherwise the next line is the value. -/
def get_field_after : List Str → Str → Option Str
  | [], _ => none
  | l :: rest, label =>
    if (pyLower label).isPrefixOf (pyLower l) then
      let inline := if l.contains ':' then pyStrip (afterFirstColon l) else []
      if !inline.isEmpty then some inline
      else
        match rest with
        | r :: _ => some r
        | [] => none
    else get_field_after rest label

/-- After the first occurrence of `speaker`, return the next two lines
(`""` for a missing one): the tail of the second-occurrence scan in
`parse_event_page`. -/
def fieldsAfterFirst (speaker : Str) : List Str → Str × Str
  | [] => ([], [])
  | l :: rest =>
    if l = speaker then
      match rest with
      | [] => ([], [])
      | [a] => (a, [])
      | a :: b :: _ => (a, b)
    else fieldsAfterFirst speaker rest

/-- The `(institution, provisional title)` pair read from the two lines
after the second occurrence of `speaker` (`parse_event_page`, the loop
with `found_first`). -/
def secondOccFields (speaker : Str) : List Str → Str × Str
  | [] => ([], [])
  | l :: rest =>
    if l = speaker then fieldsAfterFirst speaker rest
    else secondOccFields speaker rest

/-- The structural/label tokens that disqualify a provisional title. -/
def titleTokens : List Str :=
  [str "calendar", str "clock", str "organizer:", str "type:", str "host:", str "venue:"]

/-- `if not title or title.lower() in (...): title = speaker`. -/
def fixTitle (speaker title0 : Str) : Str :=
  if title0.isEmpty || titleTokens.contains (pyLower title0) then speaker else title0

/-- The date-scanning loop of `parse_event_page`: first line whose
`_parse_date` is truthy wins; a raise propagates. -/
def findDate : List Str → Except Unit (Option Date)
  | [] => .ok none
  | l :: rest =>
    match parse_date l with
    | .error e => .error e
    | .ok (some d) => .ok (some d)
    | .ok none => findDate rest

/-- First line of the window that `_parse_time` accepts (the `j` loop after
the `"clock"` marker); a raise propagates. -/
def findFirstTime : List Str → Except Unit (Option Time)
  | [] => .ok none
  | l :: rest =>
    match parse_time l with
    | .error e => .error e
    | .ok (some t) => .ok (some t)
    | .ok none => findFirstTime rest

/-- The time-extraction loop of `parse_event_page`: anchor on the first
line equal (case-insensitively) to `"clock"`; the next line is the start
time, and the first parseable time among the three lines after that is
the end time. -/
def extractTimes : List Str → Except Unit (Option Time × Option Time)
  | [] => .ok (none, none)
  | l :: rest =>
    if pyLower l = str "clock" then
      match rest with
      | [] => .ok (none, none)
      | s :: rest2 =>
        match parse_time s with
        | .error e => .error e
        | .ok st =>
          match findFirstTime (rest2.take 3) with
          | .error e => .error e
          | .ok et => .ok (st, et)
    else extractTimes rest

/-- The chip loop of `parse_event_page`: keep each nonempty chip text whose
lower-casing has not been seen yet. -/
def chipsLoop (seen : List Str) (acc : List Str) : List Str → List Str
  | [] => acc
  | c :: t =>
    if !c.isEmpty && !(seen.contains (pyLower c)) then
      chipsLoop (seen ++ [pyLower c]) (acc ++ [c]) t
    else chipsLoop seen acc t

/-- Categories from the `span.chip` elements. -/
def extractCategoriesChips (chips : List Str) : List Str := chipsLoop [] [] chips

/-- The label words excluded from the text-line category fallback. -/
def categoryLabels : List Str :=
  [str "type:", str "host:", str "hosts:", str "venue:", str "organizer:", str "actions:"]

/-- The text-line fallback for categories (`Type:` value, then the
`Organizer:` value inserted in front when distinct). -/
def fallbackCategories (lines : List Str) : List Str :=
  let category := get_field_after lines (str "Type:")
  let cats0 : List Str :=
    match category with
    | some c =>
      if !c.isEmpty && !(categoryLabels.contains (pyLower c)) then [c] else []
    | none => []
  match get_field_after lines (str "Organizer:") with
  | none => cats0
  | some o =>
    if !o.isEmpty && !(categoryLabels.contains (pyLower o)) then
      let distinct :=
        match category with
        | none => true
        | some c => c.isEmpty || !(pyLower o = pyLower c)
      if distinct then o :: cats0 else cats0
    else cats0

/-- Lines that stop the two-line host-name reconstruction. -/
def hostStopWords : List Str :=
  [str "venue:", str "actions:", str "share", str "add to calendar"]

/-- The host-refinement loop of `parse_event_page`: at the first
`host:`-labelled line without an inline value, join the next two lines
when the second looks like a short continuation. -/
def hostSpanLoop (host : Str) : List Str → Str
  | [] => host
  | l :: rest =>
    if (str "host:").isPrefixOf (pyLower l) then
      let inline := if l.contains ':' then pyStrip (afterFirstColon l) else []
      if inline.isEmpty then
        match rest with
        | [] => host
        | first :: rest2 =>
          match rest2 with
          | [] => host
          | nxt :: _ =>
            if !nxt.contains ':' && decide (nxt.length < 30) &&
                !(hostStopWords.contains (pyLower nxt)) then
              first ++ [' '] ++ nxt
            else host
      else host
    else hostSpanLoop host rest

/-- Host extraction: the `Host:` label value, refined by `hostSpanLoop`
when truthy. -/
def computeHost (lines : List Str) : Option Str :=
  match get_field_after lines (str "Host:") with
  | none => none
  | some h => if h.isEmpty then some h else some (hostSpanLoop h lines)

/-- Navigation/menu words excluded from description extraction. -/
def navWords : List Str :=
  [str "menu", str "research", str "programs", str "events", str "news", str "faculty",
    str "about", str "job market", str "for students", str "courses", str "faq",
    str "studies", str "close drawer", str "skip to main", str "helsinki gse",
    str "actions", str "share", str "add to calendar", str "twitter", str "facebook",
    str "email"]

/-- Whether a line ends with a colon (`low.endswith(":")`). -/
def endsWithColon (cs : Str) : Bool := cs.getLast? == some ':'

/-- Description extraction: the first long line that is neither a
navigation word nor a label line. -/
def findDescription : List Str → Option Str
  | [] => none
  | l :: t =>
    let low := pyStrip (pyLower l)
    if decide (80 < l.length) && !(navWords.contains low) && !(endsWithColon low) then
      some l
    else findDescription t

/-- An HTML event page, abstracted to the data `parse_event_page` consumes:
the linearized nonempty text lines, the first `h1`'s text, and the chip
texts, all in document order and whitespace-stripped. -/
structure Page where
  lines : List Str
  h1 : Option Str
  chips : List Str
deriving DecidableEq, Repr

/-- `scraper.parse_event_page`: `.ok none` when no date is found,
`.error ()` when parsing raises. -/
def parse_event_page (p : Page) (url : Str) : Except Unit (Option Event) :=
  let lines := p.lines
  let speaker := p.h1.getD []
  let fields := if speaker.isEmpty then ([], []) else secondOccFields speaker lines
  let institution := fields.1
  let title := fixTitle speaker fields.2
  match findDate lines with
  | .error e => .error e
  | .ok none => .ok none
  | .ok (some event_date) =>
    match extractTimes lines with
    | .error e => .error e
    | .ok times =>
      let cats0 := extractCategoriesChips p.chips
      let categories := if cats0.isEmpty then fallbackCategories lines else cats0
      .ok (some
        { title := title
          speaker := speaker
          institution := institution
          date := event_date
          url := url
          start_time := times.1
          end_time := times.2
          location := get_field_after lines (str "Venue:")
          description := findDescription lines
          categories := categories
          organizer := computeHost lines })




/- ------------------------------------------------------------------ -/
/- `scraper.py`: URL discovery                                         -/
/- ------------------------------------------------------------------ -/

/-- `scraper.BASE_URL`. -/
def BASE_URL : Str := str "https://www.helsinkigse.fi"

/-- Normalisation of a relative hyperlink target
(`if href.startswith("/"): href = f"{BASE_URL}{href}"`). -/
def normalizeHref (href : Str) : Str :=
  if (str "/").isPrefixOf href then BASE_URL ++ href else href

/-- The URL-shape test `re.match(rf"^{BASE_URL}/events/[^/]+$", url)`:
the events path followed by exactly one nonempty slash-free segment. -/
def matchesEventUrl (url : Str) : Bool :=
  let pre := BASE_URL ++ str "/events/"
  pre.isPrefixOf url &&
    (let slug := url.drop pre.length
     !slug.isEmpty && !slug.contains '/')

/-- The accumulation loop of `get_event_urls_from_listing`: keep each
normalised matching target not already collected. -/
def listingLoop (acc : List Str) : List Str → List Str
  | [] => acc
  | h :: t =>
    let href := normalizeHref h
    if matchesEventUrl href && !(acc.contains href) then listingLoop (acc ++ [href]) t
    else listingLoop acc t

/-- The network, abstracted to the two payloads URL discovery fetches:
the hyperlink targets of the listing page and the `<loc>` texts of the
sitemap (a `<loc>` element may have no text). `.error ()` stands for a
transport error (or, for the sitemap, malformed XML). -/
structure DiscoveryNet where
  listingHrefs : Except Unit (List Str)
  sitemapLocs : Except Unit (List (Option Str))

/-- `scraper.get_event_urls_from_listing`. -/
def get_event_urls_from_listing (net : DiscoveryNet) : Except Unit (List Str) :=
  match net.listingHrefs with
  | .error e => .error e
  | .ok hrefs => .ok (listingLoop [] hrefs)

/-- `loc.text.strip() if loc.text else ""`. -/
def locText : Option Str → Str
  | none => []
  | some s => if s.isEmpty then [] else pyStrip s

/-- `scraper.get_event_urls_from_sitemap`. -/
def get_event_urls_from_sitemap (net : DiscoveryNet) : Except Unit (List Str) :=
  match net.sitemapLocs with
  | .error e => .error e
  | .ok locs => .ok ((locs.map locText).filter matchesEventUrl)

/-- `scraper.get_event_urls`: listing first, sitemap only on an empty
(successful) listing result. -/
def get_event_urls (net : DiscoveryNet) : Except Unit (List Str) :=
  match get_event_urls_from_listing net with
  | .error e => .error e
  | .ok urls => if urls.isEmpty then get_event_urls_from_sitemap net else .ok urls

/- ------------------------------------------------------------------ -/
/- `scraper.py`: orchestration (`scrape_all_events`)                   -/
/- ------------------------------------------------------------------ -/

/-- What fetching one discovered URL yields: a transport error (caught
and logged by the loop) or the page together with its URL. -/
inductive Fetched where
  | fetchErr
  | page (p : Page) (url : Str)
deriving DecidableEq, Repr

/-- The per-URL loop of `scrape_all_events`: fetch errors, parse raises
(caught by `except Exception`) and date-less pages are skipped; extracted
events accumulate in order. -/
def collectEvents : List Fetched → List Event
  | [] => []
  | .fetchErr :: rest => collectEvents rest
  | .page p u :: rest =>
    match parse_event_page p u with
    | .error _ => collectEvents rest
    | .ok none => collectEvents rest
    | .ok (some e) => e :: collectEvents rest

/-- The sort key `(e.date, e.start_time or datetime.time())` flattened to
the list of numbers Python's tuple comparison inspects left to right. -/
def keyList (e : Event) : List Nat :=
  let t := e.start_time.getD ⟨0, 0⟩
  [e.date.year, e.date.month, e.date.day, t.hour, t.minute]

/-- Lexicographic comparison of equal-length number lists: Python's
tuple `<=`. -/
def lexLe : List Nat → List Nat → Bool
  | [], _ => true
  | _ :: _, [] => false
  | a :: as, b :: bs => decide (a < b) || (a == b && lexLe as bs)

/-- The sort order of `scrape_all_events`. -/
def evLe (a b : Event) : Prop := lexLe (keyList a) (keyList b) = true

instance : DecidableRel evLe := fun _ _ => inferInstanceAs (Decidable (_ = true))

/-- `events.sort(key=lambda e: (e.date, e.start_time or datetime.time()))`:
Python's `list.sort` is stable, and a stable sort is unique, so insertion
sort computes the same list. -/
def sortEvents (es : List Event) : List Event := List.insertionSort evLe es

/-- `if limit: urls = urls[:limit]` (a zero limit is falsy and truncates
nothing). -/
def applyLimit {α : Type} (limit : Option Nat) (xs : List α) : List α :=
  match limit with
  | none => xs
  | some n => if n == 0 then xs else xs.take n

/-- `scraper.scrape_all_events` over an already-fetched batch (the
discovery and fetch steps are abstracted into the `batch` oracle): cap
the batch, run the per-URL loop, sort the successes. -/
def scrape_all_events (batch : List Fetched) (limit : Option Nat) : List Event :=
  sortEvents (collectEvents (applyLimit limit batch))

/- ------------------------------------------------------------------ -/
/- Spec-side definition, for refutation only                           -/
/- ------------------------------------------------------------------ -/

/-- Modelled from the spec: a *strict* `DD.MM.YY` or `DD.MM.YYYY`
pattern — exactly two digits of day, exactly two digits of month, and
exactly two or exactly four digits of year. Used only to compare the
spec's wording against the code's actual (laxer) regular expression. -/
def strictDateShapeSpec (text : Str) : Bool :=
  match splitOnChar '.' (pyStrip text) with
  | [d, m, y] =>
    allDigits d && decide (d.length = 2) && allDigits m && decide (m.length = 2) &&
      allDigits y && (decide (y.length = 2) || decide (y.length = 4))
  | _ => false

/-- Case-insensitive distinctness of two category entries (the invariant
maintained by the chip `seen` set and the fallback's distinctness guard). -/
def ciDistinct (x y : Str) : Prop := pyLower x ≠ pyLower y


/- ------------------------------------------------------------------ -/
/- Order lemmas for the sort key                                       -/
/- ------------------------------------------------------------------ -/

theorem lexLe_refl (l : List Nat) : lexLe l l = true := by
  induction l with
  | nil => rfl
  | cons a as ih => simp [lexLe, ih]

theorem lexLe_total (a b : List Nat) : lexLe a b = true ∨ lexLe b a = true := by
  induction a generalizing b with
  | nil => left; rfl
  | cons x xs ih =>
    cases b with
    | nil => right; rfl
    | cons y ys =>
      rcases Nat.lt_trichotomy x y with h | h | h
      · left; simp [lexLe, h]
      · subst h
        rcases ih ys with h2 | h2
        · left; simp [lexLe, h2]
        · right; simp [lexLe, h2]
      · right; simp [lexLe, h]

theorem lexLe_trans {a b c : List Nat} (h1 : lexLe a b = true) (h2 : lexLe b c = true) :
    lexLe a c = true := by
  induction a generalizing b c with
  | nil => rfl
  | cons x xs ih =>
    cases b with
    | nil => simp [lexLe] at h1
    | cons y ys =>
      cases c with
      | nil => simp [lexLe] at h2
      | cons z zs =>
        simp only [lexLe, Bool.or_eq_true, Bool.and_eq_true, decide_eq_true_eq,
          beq_iff_eq] at h1 h2 ⊢
        rcases h1 with h1 | ⟨hxy, h1⟩
        · rcases h2 with h2 | ⟨hyz, h2⟩
          · left; omega
          · left; omega
        · rcases h2 with h2 | ⟨hyz, h2⟩
          · left; omega
          · right; exact ⟨by omega, ih h1 h2⟩

theorem evLe_of_keyList_eq {a b : Event} (h : keyList a = keyList b) : evLe a b := by
  unfold evLe
  rw [h]
  exact lexLe_refl _

instance : IsTotal Event evLe := ⟨fun _ _ => lexLe_total _ _⟩

instance : IsTrans Event evLe := ⟨fun _ _ _ h1 h2 => lexLe_trans h1 h2⟩

theorem filter_orderedInsert (k : List Nat) (a : Event) (l : List Event) :
    (List.orderedInsert evLe a l).filter (fun e => keyList e == k) =
      if keyList a == k then a :: l.filter (fun e => keyList e == k)
      else l.filter (fun e => keyList e == k) := by
  induction l with
  | nil =>
    simp only [List.orderedInsert, List.filter]
    split <;> simp_all
  | cons b t ih =>
    simp only [List.orderedInsert]
    by_cases hab : evLe a b
    · rw [if_pos hab]
      simp only [List.filter_cons]
    · rw [if_neg hab]
      simp only [List.filter_cons]
      rw [ih]
      by_cases hak : (keyList a == k) = true
      · by_cases hbk : (keyList b == k) = true
        · exfalso
          exact hab (evLe_of_keyList_eq (by rw [beq_iff_eq] at hak hbk; rw [hak, hbk]))
        · simp [hak, hbk]
      · by_cases hbk : (keyList b == k) = true <;> simp [hak, hbk]

theorem filter_insertionSort (k : List Nat) (l : List Event) :
    (List.insertionSort evLe l).filter (fun e => keyList e == k) =
      l.filter (fun e => keyList e == k) := by
  induction l with
  | nil => rfl
  | cons a t ih =>
    simp only [List.insertionSort]
    rw [filter_orderedInsert, List.filter_cons]
    by_cases hak : (keyList a == k) = true <;> simp [hak, ih]

/- ------------------------------------------------------------------ -/
/- Lemmas about date and time scanning                                 -/
/- ------------------------------------------------------------------ -/

theorem parse_date_of_not_shape {l : Str} (h : matchesDateShape l = false) :
    parse_date l = .ok none := by
  unfold matchesDateShape at h
  unfold parse_date
  cases hd : dateShapeParts l with
  | none => rfl
  | some parts => rw [hd] at h; simp at h

theorem parse_date_ne_ok_none {l : Str} (h : matchesDateShape l = true) :
    parse_date l ≠ .ok none := by
  unfold matchesDateShape at h
  unfold parse_date
  cases hd : dateShapeParts l with
  | none => rw [hd] at h; simp at h
  | some parts =>
    obtain ⟨ds, ms, ys⟩ := parts
    simp only
    split <;> split <;> simp

theorem findDate_no_match {lines : List Str}
    (h : ∀ l ∈ lines, matchesDateShape l = false) : findDate lines = .ok none := by
  induction lines with
  | nil => rfl
  | cons l rest ih =>
    unfold findDate
    rw [parse_date_of_not_shape (h l (by simp))]
    exact ih fun x hx => h x (by simp [hx])

theorem findDate_append {pre : List Str} {s : Str} {rest : List Str}
    (hpre : ∀ l ∈ pre, matchesDateShape l = false) (hs : matchesDateShape s = true) :
    findDate (pre ++ s :: rest) = parse_date s := by
  induction pre with
  | nil =>
    simp only [List.nil_append]
    unfold findDate
    cases hps : parse_date s with
    | error e => rfl
    | ok od =>
      cases od with
      | none => exact absurd hps (parse_date_ne_ok_none hs)
      | some d => rfl
  | cons x xs ih =>
    simp only [List.cons_append]
    unfold findDate
    rw [parse_date_of_not_shape (hpre x (by simp))]
    exact ih fun l hl => hpre l (by simp [hl])

theorem findDate_error {pre : List Str} {bad : Str} {rest : List Str}
    (hpre : ∀ l ∈ pre, parse_date l = .ok none) (hbad : parse_date bad = .error ()) :
    findDate (pre ++ bad :: rest) = .error () := by
  induction pre with
  | nil =>
    simp only [List.nil_append]
    unfold findDate
    rw [hbad]
  | cons x xs ih =>
    simp only [List.cons_append]
    unfold findDate
    rw [hpre x (by simp)]
    exact ih fun l hl => hpre l (by simp [hl])

theorem extractTimes_no_clock {lines : List Str}
    (h : ∀ l ∈ lines, pyLower l ≠ str "clock") : extractTimes lines = .ok (none, none) := by
  induction lines with
  | nil => rfl
  | cons l rest ih =>
    unfold extractTimes
    rw [if_neg (h l (by simp))]
    exact ih fun x hx => h x (by simp [hx])

theorem extractTimes_anchor {pre : List Str} {c s : Str} {rest : List Str}
    (hpre : ∀ l ∈ pre, pyLower l ≠ str "clock") (hc : pyLower c = str "clock") :
    extractTimes (pre ++ c :: s :: rest) =
      match parse_time s with
      | .error e => .error e
      | .ok st =>
        match findFirstTime (rest.take 3) with
        | .error e => .error e
        | .ok et => .ok (st, et) := by
  induction pre with
  | nil =>
    simp only [List.nil_append]
    unfold extractTimes
    rw [if_pos hc]
  | cons x xs ih =>
    simp only [List.cons_append]
    unfold extractTimes
    rw [if_neg (hpre x (by simp))]
    exact ih fun l hl => hpre l (by simp [hl])

/- ------------------------------------------------------------------ -/
/- Elimination lemma for a successful page parse                       -/
/- ------------------------------------------------------------------ -/

theorem parse_some_elim {p : Page} {url : Str} {ev : Event}
    (h : parse_event_page p url = .ok (some ev)) :
    findDate p.lines = .ok (some ev.date) ∧
    extractTimes p.lines = .ok (ev.start_time, ev.end_time) ∧
    ev.categories = (if (extractCategoriesChips p.chips).isEmpty
      then fallbackCategories p.lines else extractCategoriesChips p.chips) ∧
    ev.speaker = p.h1.getD [] ∧
    ev.institution =
      (if (p.h1.getD []).isEmpty then (([] : Str), ([] : Str))
        else secondOccFields (p.h1.getD []) p.lines).1 ∧
    ev.title = fixTitle (p.h1.getD [])
      (if (p.h1.getD []).isEmpty then (([] : Str), ([] : Str))
        else secondOccFields (p.h1.getD []) p.lines).2 := by
  simp only [parse_event_page] at h
  cases hfd : findDate p.lines with
  | error e => rw [hfd] at h; simp at h
  | ok od =>
    cases od with
    | none => rw [hfd] at h; simp at h
    | some d =>
      rw [hfd] at h
      cases het : extractTimes p.lines with
      | error e => rw [het] at h; simp at h
      | ok times =>
        rw [het] at h
        simp only [Except.ok.injEq, Option.some.injEq] at h
        subst h
        refine ⟨rfl, ?_, rfl, rfl, rfl, rfl⟩
        cases times
        rfl

/- ------------------------------------------------------------------ -/
/- Lemmas about category extraction                                    -/
/- ------------------------------------------------------------------ -/

theorem chipsLoop_split (chips : List Str) :
    ∀ seen acc, ∃ s, chipsLoop seen acc chips = acc ++ s ∧ s.Sublist chips := by
  induction chips with
  | nil => exact fun seen acc => ⟨[], by simp [chipsLoop]⟩
  | cons c t ih =>
    intro seen acc
    unfold chipsLoop
    by_cases hc : (!c.isEmpty && !(seen.contains (pyLower c))) = true
    · rw [if_pos hc]
      obtain ⟨s, hs, hsub⟩ := ih (seen ++ [pyLower c]) (acc ++ [c])
      refine ⟨c :: s, ?_, List.Sublist.cons₂ c hsub⟩
      rw [hs, List.append_assoc]
      rfl
    · rw [if_neg hc]
      obtain ⟨s, hs, hsub⟩ := ih seen acc
      exact ⟨s, hs, List.Sublist.cons c hsub⟩

theorem chipsLoop_pairwise (chips : List Str) :
    ∀ seen acc, (∀ a ∈ acc, pyLower a ∈ seen) → acc.Pairwise ciDistinct →
      (chipsLoop seen acc chips).Pairwise ciDistinct := by
  induction chips with
  | nil => intro seen acc _ hp; simpa [chipsLoop] using hp
  | cons c t ih =>
    intro seen acc hinv hp
    unfold chipsLoop
    by_cases hc : (!c.isEmpty && !(seen.contains (pyLower c))) = true
    · rw [if_pos hc]
      simp only [Bool.and_eq_true, Bool.not_eq_true'] at hc
      apply ih
      · intro a ha
        rcases List.mem_append.1 ha with ha | ha
        · exact List.mem_append.2 (Or.inl (hinv a ha))
        · simp only [List.mem_singleton] at ha
          subst ha
          exact List.mem_append.2 (Or.inr (by simp))
      · rw [List.pairwise_append]
        refine ⟨hp, by simp, ?_⟩
        intro a ha b hb
        simp only [List.mem_singleton] at hb
        intro heq
        rw [hb] at heq
        have hmem : pyLower c ∈ seen := heq ▸ hinv a ha
        have hnot : pyLower c ∉ seen := by
          have := hc.2
          simpa using this
        exact hnot hmem
    · rw [if_neg hc]
      exact ih seen acc hinv hp

theorem extractCategoriesChips_pairwise (chips : List Str) :
    (extractCategoriesChips chips).Pairwise ciDistinct :=
  chipsLoop_pairwise chips [] [] (by simp) (by simp)

theorem extractCategoriesChips_sublist (chips : List Str) :
    (extractCategoriesChips chips).Sublist chips := by
  obtain ⟨s, hs, hsub⟩ := chipsLoop_split chips [] []
  unfold extractCategoriesChips
  rw [hs]
  simpa using hsub

theorem fallbackCategories_pairwise (lines : List Str) :
    (fallbackCategories lines).Pairwise ciDistinct := by
  simp only [fallbackCategories]
  cases hty : get_field_after lines (str "Type:") with
  | none =>
    cases hog : get_field_after lines (str "Organizer:") with
    | none => simp
    | some o =>
      dsimp only
      split_ifs <;> simp [ciDistinct]
  | some c =>
    cases hog : get_field_after lines (str "Organizer:") with
    | none =>
      dsimp only
      split_ifs <;> simp [ciDistinct]
    | some o =>
      dsimp only
      split_ifs <;> simp_all [ciDistinct]

theorem categories_pairwise {p : Page} {url : Str} {ev : Event}
    (h : parse_event_page p url = .ok (some ev)) : ev.categories.Pairwise ciDistinct := by
  have hc := (parse_some_elim h).2.2.1
  rw [hc]
  by_cases he : (extractCategoriesChips p.chips).isEmpty = true
  · rw [if_pos he]
    exact fallbackCategories_pairwise p.lines
  · rw [if_neg he]
    exact extractCategoriesChips_pairwise p.chips

/- ------------------------------------------------------------------ -/
/- Lemmas about the speaker-occurrence scan                            -/
/- ------------------------------------------------------------------ -/

theorem fieldsAfterFirst_eq (s a b : Str) (r : List Str) :
    ∀ q : List Str, s ∉ q → fieldsAfterFirst s (q ++ s :: a :: b :: r) = (a, b) := by
  intro q
  induction q with
  | nil =>
    intro _
    simp only [List.nil_append]
    unfold fieldsAfterFirst
    rw [if_pos rfl]
  | cons x xs ih =>
    intro hq
    have hx : ¬(x = s) := fun h => hq (by simp [h])
    simp only [List.cons_append]
    unfold fieldsAfterFirst
    rw [if_neg hx]
    exact ih fun h => hq (by simp [h])

theorem secondOccFields_eq (s a b : Str) (r p q : List Str) (hp : s ∉ p) (hq : s ∉ q) :
    secondOccFields s (p ++ s :: (q ++ s :: a :: b :: r)) = (a, b) := by
  induction p with
  | nil =>
    simp only [List.nil_append]
    unfold secondOccFields
    rw [if_pos rfl]
    exact fieldsAfterFirst_eq s a b r q hq
  | cons x xs ih =>
    have hx : ¬(x = s) := fun h => hp (by simp [h])
    simp only [List.cons_append]
    unfold secondOccFields
    rw [if_neg hx]
    exact ih fun h => hp (by simp [h])

/- ------------------------------------------------------------------ -/
/- Lemmas about listing-page URL collection                            -/
/- ------------------------------------------------------------------ -/

theorem listingLoop_spec (t : List Str) :
    ∀ acc, acc.Nodup →
      ∃ s, listingLoop acc t = acc ++ s ∧
        s.Sublist ((t.map normalizeHref).filter matchesEventUrl) ∧
        (acc ++ s).Nodup ∧
        (∀ u, u ∈ acc ++ s ↔
          u ∈ acc ∨ (u ∈ t.map normalizeHref ∧ matchesEventUrl u = true)) := by
  induction t with
  | nil =>
    intro acc hnd
    exact ⟨[], by simp [listingLoop], by simp, by simpa using hnd, by simp⟩
  | cons h t ih =>
    intro acc hnd
    unfold listingLoop
    by_cases hcond :
        (matchesEventUrl (normalizeHref h) && !(acc.contains (normalizeHref h))) = true
    · rw [if_pos hcond]
      simp only [Bool.and_eq_true, Bool.not_eq_true'] at hcond
      have hno : normalizeHref h ∉ acc := by
        have := hcond.2
        simpa using this
      have hnd' : (acc ++ [normalizeHref h]).Nodup := by
        rw [List.nodup_append]
        refine ⟨hnd, by simp, ?_⟩
        intro a ha hb
        simp only [List.mem_singleton] at hb
        exact hno (hb ▸ ha)
      obtain ⟨s, hs, hsub, hnds, hmem⟩ := ih (acc ++ [normalizeHref h]) hnd'
      have hassoc : acc ++ normalizeHref h :: s = (acc ++ [normalizeHref h]) ++ s := by
        rw [List.append_assoc]
        rfl
      refine ⟨normalizeHref h :: s, ?_, ?_, ?_, ?_⟩
      · rw [hs, List.append_assoc]
        rfl
      · simp only [List.map_cons, List.filter_cons, hcond.1]
        exact List.Sublist.cons₂ _ hsub
      · rw [hassoc]
        exact hnds
      · intro u
        rw [hassoc, hmem u]
        constructor
        · rintro (hu | ⟨hum, hm⟩)
          · rcases List.mem_append.1 hu with hu | hu
            · exact Or.inl hu
            · simp only [List.mem_singleton] at hu
              subst hu
              exact Or.inr ⟨by simp, hcond.1⟩
          · exact Or.inr ⟨by simp [hum], hm⟩
        · rintro (hu | ⟨hum, hm⟩)
          · exact Or.inl (List.mem_append.2 (Or.inl hu))
          · simp only [List.map_cons, List.mem_cons] at hum
            rcases hum with hu | hu
            · subst hu
              exact Or.inl (List.mem_append.2 (Or.inr (by simp)))
            · exact Or.inr ⟨hu, hm⟩
    · rw [if_neg hcond]
      obtain ⟨s, hs, hsub, hnds, hmem⟩ := ih acc hnd
      have hc2 : matchesEventUrl (normalizeHref h) = true → normalizeHref h ∈ acc := by
        intro hm2
        by_contra hna
        apply hcond
        simp [hm2, hna]
      refine ⟨s, hs, ?_, hnds, ?_⟩
      · simp only [List.map_cons, List.filter_cons]
        split
        · exact List.Sublist.cons _ hsub
        · exact hsub
      · intro u
        rw [hmem u]
        constructor
        · rintro (hu | ⟨hum, hm⟩)
          · exact Or.inl hu
          · exact Or.inr ⟨by simp [hum], hm⟩
        · rintro (hu | ⟨hum, hm⟩)
          · exact Or.inl hu
          · simp only [List.map_cons, List.mem_cons] at hum
            rcases hum with hu | hu
            · subst hu
              exact Or.inl (hc2 hm)
            · exact Or.inr ⟨hu, hm⟩

/- ------------------------------------------------------------------ -/
/- Claim theorems                                                      -/
/- ------------------------------------------------------------------ -/

/-- C1: a page none of whose linearized text lines matches the date
regular expression yields no event at all (`parse_event_page` returns
`None`), never a partially populated `Event`. -/
theorem c1_no_date_no_event (p : Page) (url : Str)
    (h : ∀ l ∈ p.lines, matchesDateShape l = false) :
    parse_event_page p url = .ok none := by
  simp only [parse_event_page]
  rw [findDate_no_match h]

/-- Witness for C1 at a concrete date-less page. -/
theorem c1_witness :
    parse_event_page ⟨[str "hello", str "world"], some (str "A"), []⟩ (str "u") = .ok none :=
  c1_no_date_no_event _ _ (by decide)

/-- C2, counterexample: the sitemap fallback does not deduplicate — a
sitemap repeating a matching `<loc>` entry yields a duplicated URL list,
contradicting "no duplicate entries" for the fallback strategy. -/
theorem c2_counterexample :
    get_event_urls_from_sitemap
        ⟨.ok [], .ok [some (str "https://www.helsinkigse.fi/events/a"),
          some (str "https://www.helsinkigse.fi/events/a")]⟩ =
      .ok [str "https://www.helsinkigse.fi/events/a",
        str "https://www.helsinkigse.fi/events/a"] ∧
    ¬ ([str "https://www.helsinkigse.fi/events/a",
        str "https://www.helsinkigse.fi/events/a"] : List Str).Nodup := by
  exact ⟨by decide, by decide⟩

/-- C2, amended: the primary listing strategy returns a duplicate-free
list containing exactly the normalised discovered URLs that match the
`<site>/events/<segment>` shape, in first-seen order (a sublist of the
filtered normalised targets); the sitemap fallback keeps every matching
`<loc>` entry in document order, duplicates included. -/
theorem c2_url_discovery :
    (∀ hrefs sm, get_event_urls_from_listing ⟨.ok hrefs, sm⟩ = .ok (listingLoop [] hrefs)) ∧
    (∀ hrefs : List Str, (listingLoop [] hrefs).Nodup) ∧
    (∀ hrefs : List Str,
      (listingLoop [] hrefs).Sublist ((hrefs.map normalizeHref).filter matchesEventUrl)) ∧
    (∀ (hrefs : List Str) (u : Str), u ∈ listingLoop [] hrefs ↔
      u ∈ hrefs.map normalizeHref ∧ matchesEventUrl u = true) ∧
    (∀ lh locs, get_event_urls_from_sitemap ⟨lh, .ok locs⟩ =
      .ok ((locs.map locText).filter matchesEventUrl)) := by
  refine ⟨fun hrefs sm => rfl, ?_, ?_, ?_, fun lh locs => rfl⟩
  · intro hrefs
    obtain ⟨s, hs, _, hnd, _⟩ := listingLoop_spec hrefs [] List.nodup_nil
    have hs' : listingLoop [] hrefs = s := by simpa using hs
    rw [hs']
    simpa using hnd
  · intro hrefs
    obtain ⟨s, hs, hsub, _, _⟩ := listingLoop_spec hrefs [] List.nodup_nil
    have hs' : listingLoop [] hrefs = s := by simpa using hs
    rw [hs']
    exact hsub
  · intro hrefs u
    obtain ⟨s, hs, _, _, hmem⟩ := listingLoop_spec hrefs [] List.nodup_nil
    have hs' : listingLoop [] hrefs = s := by simpa using hs
    rw [hs']
    have := hmem u
    simpa using this

/-- C3: the orchestrator's final list is the stable ascending sort of the
extracted events by `(date, start-time-or-midnight)`: it is sorted under
the key order, a permutation of the input, key-classes keep their input
order, and an absent start time has the same key as an explicit midnight. -/
theorem c3_sorted_stable :
    (∀ batch limit,
      scrape_all_events batch limit = sortEvents (collectEvents (applyLimit limit batch))) ∧
    (∀ es : List Event, (sortEvents es).Sorted evLe) ∧
    (∀ es : List Event, (sortEvents es).Perm es) ∧
    (∀ (es : List Event) (k : List Nat),
      (sortEvents es).filter (fun e => keyList e == k) =
        es.filter (fun e => keyList e == k)) ∧
    (∀ e : Event, keyList { e with start_time := none } =
      keyList { e with start_time := some ⟨0, 0⟩ }) := by
  refine ⟨fun _ _ => rfl, ?_, ?_, ?_, fun e => rfl⟩
  · exact fun es => List.sorted_insertionSort evLe es
  · exact fun es => List.perm_insertionSort evLe es
  · exact fun es k => filter_insertionSort k es

/-- C4: the sitemap fallback runs exactly when the listing strategy
succeeds with an empty list; a listing transport error propagates
unchanged (whatever the sitemap holds) and a nonempty listing result is
returned as is. -/
theorem c4_fallback_iff_empty :
    (∀ sm, get_event_urls ⟨.error (), sm⟩ = .error ()) ∧
    (∀ hrefs sm, listingLoop [] hrefs ≠ [] →
      get_event_urls ⟨.ok hrefs, sm⟩ = .ok (listingLoop [] hrefs)) ∧
    (∀ hrefs sm, listingLoop [] hrefs = [] →
      get_event_urls ⟨.ok hrefs, sm⟩ = get_event_urls_from_sitemap ⟨.ok hrefs, sm⟩) := by
  refine ⟨fun sm => rfl, ?_, ?_⟩
  · intro hrefs sm hne
    simp only [get_event_urls, get_event_urls_from_listing]
    rw [if_neg (by simpa [List.isEmpty_iff] using hne)]
  · intro hrefs sm he
    simp only [get_event_urls, get_event_urls_from_listing]
    rw [if_pos (by rw [he]; rfl)]

/-- Witness for C4 at concrete network payloads. -/
theorem c4_witness :
    get_event_urls ⟨.error (), .ok []⟩ = .error () ∧
    get_event_urls ⟨.ok [str "/events/a"], .ok []⟩ =
      .ok (listingLoop [] [str "/events/a"]) ∧
    get_event_urls ⟨.ok [], .ok [some (str "https://www.helsinkigse.fi/events/b")]⟩ =
      get_event_urls_from_sitemap
        ⟨.ok [], .ok [some (str "https://www.helsinkigse.fi/events/b")]⟩ :=
  ⟨c4_fallback_iff_empty.1 _, c4_fallback_iff_empty.2.1 _ _ (by decide),
    c4_fallback_iff_empty.2.2 _ _ (by decide)⟩

/-- C5, counterexample: `"5.3.25"` is not of the strict `DD.MM.YY` /
`DD.MM.YYYY` shape, yet the extractor recognises it and builds an event
dated 2025-03-05 from it — so "lines of any other shape are never
recognized as dates" fails as stated. -/
theorem c5_counterexample :
    strictDateShapeSpec (str "5.3.25") = false ∧
    parse_event_page ⟨[str "5.3.25"], none, []⟩ (str "u") =
      .ok (some ⟨[], [], [], ⟨2025, 3, 5⟩, str "u", none, none, none, none, [], none⟩) :=
  ⟨by decide, by decide⟩

/-- C5, amended: the event date comes from the first line matching the
laxer pattern `day(1-2 digits).month(1-2 digits).year(2-4 digits)`; a
year value below 100 is read as 2000 + year; lines not matching that
pattern are never recognised as dates. -/
theorem c5_first_date_line :
    (∀ l : Str, matchesDateShape l = false → parse_date l = .ok none) ∧
    (∀ (pre : List Str) (s : Str) (rest : List Str),
      (∀ l ∈ pre, matchesDateShape l = false) → matchesDateShape s = true →
      findDate (pre ++ s :: rest) = parse_date s) ∧
    (∀ (s ds ms ys : Str) (d : Date), dateShapeParts s = some (ds, ms, ys) →
      parse_date s = .ok (some d) →
      d.day = digitsToNat ds ∧ d.month = digitsToNat ms ∧
      d.year = (if digitsToNat ys < 100 then digitsToNat ys + 2000 else digitsToNat ys)) ∧
    (∀ (p : Page) (url : Str) (ev : Event), parse_event_page p url = .ok (some ev) →
      findDate p.lines = .ok (some ev.date)) := by
  refine ⟨fun l h => parse_date_of_not_shape h,
    fun pre s rest h1 h2 => findDate_append h1 h2, ?_,
    fun p url ev h => (parse_some_elim h).1⟩
  intro s ds ms ys d hparts hparse
  simp only [parse_date, hparts] at hparse
  by_cases hy : digitsToNat ys < 100
  · rw [if_pos hy] at hparse
    split at hparse
    · simp only [Except.ok.injEq, Option.some.injEq] at hparse
      subst hparse
      exact ⟨rfl, rfl, by rw [if_pos hy]⟩
    · simp at hparse
  · rw [if_neg hy] at hparse
    split at hparse
    · simp only [Except.ok.injEq, Option.some.injEq] at hparse
      subst hparse
      exact ⟨rfl, rfl, by rw [if_neg hy]⟩
    · simp at hparse

/-- Witness for C5 (amended) at concrete lines. -/
theorem c5_witness :
    parse_date (str "url") = .ok none ∧
    findDate [str "x", str "5.3.25", str "23.02.26"] = parse_date (str "5.3.25") ∧
    ((⟨2025, 3, 5⟩ : Date).day = digitsToNat (str "5") ∧
      (⟨2025, 3, 5⟩ : Date).month = digitsToNat (str "3") ∧
      (⟨2025, 3, 5⟩ : Date).year =
        (if digitsToNat (str "25") < 100 then digitsToNat (str "25") + 2000
          else digitsToNat (str "25"))) ∧
    findDate [str "5.3.25"] = .ok (some ⟨2025, 3, 5⟩) :=
  ⟨c5_first_date_line.1 (str "url") (by decide),
    c5_first_date_line.2.1 [str "x"] (str "5.3.25") [str "23.02.26"] (by decide) (by decide),
    c5_first_date_line.2.2.1 (str "5.3.25") (str "5") (str "3") (str "25") ⟨2025, 3, 5⟩
      (by decide) (by decide),
    c5_first_date_line.2.2.2 ⟨[str "5.3.25"], none, []⟩ (str "u")
      ⟨[], [], [], ⟨2025, 3, 5⟩, str "u", none, none, none, none, [], none⟩ (by decide)⟩

/-- C6: every extracted event's category list is pairwise distinct under
case-insensitive comparison; the chip extraction keeps a sublist of the
chip texts (first-seen order, original casing), and the worked example
`["Micro", "micro", "IO"]` yields `["Micro", "IO"]`. -/
theorem c6_categories_dedup :
    (∀ (p : Page) (url : Str) (ev : Event), parse_event_page p url = .ok (some ev) →
      ev.categories.Pairwise ciDistinct) ∧
    (∀ chips : List Str, (extractCategoriesChips chips).Sublist chips) ∧
    (extractCategoriesChips [str "Micro", str "micro", str "IO"] =
      [str "Micro", str "IO"]) :=
  ⟨fun _ _ _ h => categories_pairwise h, extractCategoriesChips_sublist, by decide⟩

/-- Witness for C6: the invariant evaluated on a concrete parsed page. -/
theorem c6_witness :
    ([str "Micro", str "IO"] : List Str).Pairwise ciDistinct :=
  c6_categories_dedup.1 ⟨[str "01.01.25"], some (str "A"),
      [str "Micro", str "micro", str "IO"]⟩ (str "u")
    ⟨str "A", str "A", [], ⟨2025, 1, 1⟩, str "u", none, none, none, none,
      [str "Micro", str "IO"], none⟩ (by decide)

/-- C7: time extraction is anchored on the first case-insensitive
`"clock"` line — the next line is the start time and the first parseable
time among the following three lines the end time; without a marker both
stay unset; `["clock", "12:15", "–", "13:00"]` gives 12:15 and 13:00. -/
theorem c7_time_extraction :
    (∀ lines : List Str, (∀ l ∈ lines, pyLower l ≠ str "clock") →
      extractTimes lines = .ok (none, none)) ∧
    (∀ (pre : List Str) (c s : Str) (rest : List Str),
      (∀ l ∈ pre, pyLower l ≠ str "clock") → pyLower c = str "clock" →
      extractTimes (pre ++ c :: s :: rest) =
        match parse_time s with
        | .error e => .error e
        | .ok st =>
          match findFirstTime (rest.take 3) with
          | .error e => .error e
          | .ok et => .ok (st, et)) ∧
    (∀ (p : Page) (url : Str) (ev : Event), parse_event_page p url = .ok (some ev) →
      extractTimes p.lines = .ok (ev.start_time, ev.end_time)) ∧
    (extractTimes [str "clock", str "12:15", str "–", str "13:00"] =
      .ok (some ⟨12, 15⟩, some ⟨13, 0⟩)) :=
  ⟨fun _ h => extractTimes_no_clock h, fun _ _ _ _ h1 h2 => extractTimes_anchor h1 h2,
    fun _ _ _ h => (parse_some_elim h).2.1, by decide⟩

/-- Witness for C7 at concrete line lists and a concrete page. -/
theorem c7_witness :
    extractTimes [str "x"] = .ok (none, none) ∧
    extractTimes [str "a", str "Clock", str "12:15", str "13:00"] =
      .ok (some ⟨12, 15⟩, some ⟨13, 0⟩) ∧
    extractTimes [str "23.02.26", str "clock", str "12:15", str "–", str "13:00"] =
      .ok (some ⟨12, 15⟩, some ⟨13, 0⟩) :=
  ⟨c7_time_extraction.1 [str "x"] (by decide),
    (c7_time_extraction.2.1 [str "a"] (str "Clock") (str "12:15") [str "13:00"]
      (by decide) (by decide)).trans (by decide),
    c7_time_extraction.2.2.1
      ⟨[str "23.02.26", str "clock", str "12:15", str "–", str "13:00"], none, []⟩ (str "u")
      ⟨[], [], [], ⟨2026, 2, 23⟩, str "u", some ⟨12, 15⟩, some ⟨13, 0⟩, none, none, [], none⟩
      (by decide)⟩

/-- C8: institution and title are the two lines after the second exact
occurrence of the speaker's name; a provisional title that is empty or a
structural token is replaced by the speaker; the Jane Doe example
extracts institution "MIT" and title "On Wage Dynamics". -/
theorem c8_institution_title :
    (∀ (s a b : Str) (r p q : List Str), s ∉ p → s ∉ q →
      secondOccFields s (p ++ s :: (q ++ s :: a :: b :: r)) = (a, b)) ∧
    (∀ sp t : Str, t = [] ∨ titleTokens.contains (pyLower t) = true → fixTitle sp t = sp) ∧
    (∀ (p : Page) (url : Str) (ev : Event), parse_event_page p url = .ok (some ev) →
      (p.h1.getD []).isEmpty = false →
      ev.institution = (secondOccFields (p.h1.getD []) p.lines).1 ∧
      ev.title = fixTitle (p.h1.getD []) (secondOccFields (p.h1.getD []) p.lines).2) ∧
    (parse_event_page
        ⟨[str "Helsinki GSE", str "Menu", str "Jane Doe", str "Research", str "Programs",
          str "Events", str "News", str "About", str "Faculty", str "Jane Doe", str "MIT",
          str "On Wage Dynamics", str "calendar", str "23.02.26", str "clock", str "12:15",
          str "13:00"], some (str "Jane Doe"), []⟩ (str "u") =
      .ok (some ⟨str "On Wage Dynamics", str "Jane Doe", str "MIT", ⟨2026, 2, 23⟩,
        str "u", some ⟨12, 15⟩, some ⟨13, 0⟩, none, none, [], none⟩)) := by
  refine ⟨fun s a b r p q hp hq => secondOccFields_eq s a b r p q hp hq, ?_, ?_, by decide⟩
  · intro sp t h
    rcases h with h | h
    · subst h
      simp [fixTitle]
    · unfold fixTitle
      rw [h, Bool.or_true]
      rfl
  · intro p url ev h hne
    have h1 := (parse_some_elim h).2.2.2.2.1
    have h2 := (parse_some_elim h).2.2.2.2.2
    constructor
    · rw [h1, if_neg (by simp [hne])]
    · rw [h2, if_neg (by simp [hne])]

/-- Witness for C8 at concrete inputs. -/
theorem c8_witness :
    secondOccFields (str "S")
        ([str "x"] ++ str "S" :: ([str "y"] ++ str "S" :: str "MIT" :: str "T" :: [])) =
      (str "MIT", str "T") ∧
    fixTitle (str "S") (str "Venue:") = str "S" ∧
    fixTitle (str "S") [] = str "S" :=
  ⟨c8_institution_title.1 (str "S") (str "MIT") (str "T") [] [str "x"] [str "y"]
      (by decide) (by decide),
    c8_institution_title.2.1 (str "S") (str "Venue:") (Or.inr (by decide)),
    c8_institution_title.2.1 (str "S") [] (Or.inl rfl)⟩

/-- C9, counterexample: on a page whose line after the `"clock"` marker
is not a time but whose window holds one, the extractor sets `end_time`
while `start_time` stays absent — refuting "if start_time is absent then
end_time is also absent". -/
theorem c9_counterexample :
    parse_event_page ⟨[str "01.01.25", str "clock", str "x", str "13:00"], none, []⟩
        (str "u") =
      .ok (some ⟨[], [], [], ⟨2025, 1, 1⟩, str "u", none, some ⟨13, 0⟩, none, none, [],
        none⟩) ∧
    (none : Option Time) = none ∧ some (⟨13, 0⟩ : Time) ≠ none :=
  ⟨by decide, rfl, by decide⟩

/-- C9, amended: `end_time` is only ever set when a case-insensitive
`"clock"` marker line is present (but `start_time` may still be absent
when the line right after the marker fails to parse as a time). -/
theorem c9_end_time_needs_clock (p : Page) (url : Str) (ev : Event)
    (h : parse_event_page p url = .ok (some ev)) (hsome : ev.end_time.isSome = true) :
    ∃ l ∈ p.lines, pyLower l = str "clock" := by
  by_contra hno
  push_neg at hno
  have het := (parse_some_elim h).2.1
  rw [extractTimes_no_clock hno] at het
  simp only [Except.ok.injEq, Prod.mk.injEq] at het
  rw [← het.2] at hsome
  simp at hsome

/-- Witness for C9 (amended) at a concrete page with a clock marker. -/
theorem c9_witness :
    ∃ l ∈ ([str "01.01.25", str "clock", str "x", str "13:00"] : List Str),
      pyLower l = str "clock" :=
  c9_end_time_needs_clock ⟨[str "01.01.25", str "clock", str "x", str "13:00"], none, []⟩
    (str "u")
    ⟨[], [], [], ⟨2025, 1, 1⟩, str "u", none, some ⟨13, 0⟩, none, none, [], none⟩
    (by decide) (by decide)

/-- C10: when the first date-shaped line encodes an invalid calendar
date, `parse_event_page` raises (it neither returns `None` nor tries
later lines), and the batch loop catches the raise and skips just that
page; day 32 and month 13 do raise. -/
theorem c10_invalid_date_skipped :
    (∀ (p : Page) (url : Str) (pre : List Str) (bad : Str) (rest : List Str),
      p.lines = pre ++ bad :: rest → (∀ l ∈ pre, parse_date l = .ok none) →
      parse_date bad = .error () → parse_event_page p url = .error ()) ∧
    (∀ (p : Page) (url : Str) (rest : List Fetched),
      parse_event_page p url = .error () →
      collectEvents (.page p url :: rest) = collectEvents rest) ∧
    parse_date (str "32.01.25") = .error () ∧
    parse_date (str "01.13.25") = .error () := by
  refine ⟨?_, ?_, by decide, by decide⟩
  · intro p url pre bad rest hl hpre hbad
    simp only [parse_event_page]
    rw [hl, findDate_error hpre hbad]
  · intro p url rest h
    simp only [collectEvents, h]

/-- Witness for C10: the raise and the skip at a concrete batch. -/
theorem c10_witness :
    parse_event_page ⟨[str "heading", str "32.01.25"], none, []⟩ (str "u") = .error () ∧
    collectEvents [.page ⟨[str "heading", str "32.01.25"], none, []⟩ (str "u"),
        .page ⟨[str "01.01.25"], none, []⟩ (str "v")] =
      collectEvents [.page ⟨[str "01.01.25"], none, []⟩ (str "v")] := by
  have h1 := c10_invalid_date_skipped.1 ⟨[str "heading", str "32.01.25"], none, []⟩
    (str "u") [str "heading"] (str "32.01.25") [] rfl (by decide) (by decide)
  exact ⟨h1, c10_invalid_date_skipped.2.1 _ _ _ h1⟩

/- ------------------------------------------------------------------ -/
/- Concrete evaluation checks                                          -/
/- ------------------------------------------------------------------ -/

example : parse_date (str "23.02.26") = .ok (some ⟨2026, 2, 23⟩) := by decide
example : parse_date (str "5.3.25") = .ok (some ⟨2025, 3, 5⟩) := by decide
example : parse_date (str "32.01.25") = .error () := by decide
example : parse_date (str "01.13.25") = .error () := by decide
example : parse_date (str "hello") = .ok none := by decide
example : parse_date (str "29.02.24") = .ok (some ⟨2024, 2, 29⟩) := by decide
example : parse_date (str "29.02.25") = .error () := by decide
example : parse_time (str "12:15") = .ok (some ⟨12, 15⟩) := by decide
example : parse_time (str "77:00") = .error () := by decide
example : parse_time (str "–") = .ok none := by decide
example : strictDateShapeSpec (str "23.02.26") = true := by decide
example : strictDateShapeSpec (str "5.3.25") = false := by decide
example : matchesDateShape (str "5.3.25") = true := by decide
example :
    parse_event_page ⟨[str "hello", str "world"], some (str "A"), []⟩ (str "u") =
      .ok none := by decide
example :
    extractTimes [str "clock", str "12:15", str "–", str "13:00"] =
      .ok (some ⟨12, 15⟩, some ⟨13, 0⟩) := by decide
example :
    extractCategoriesChips [str "Micro", str "micro", str "IO"] =
      [str "Micro", str "IO"] := by decide

end HGSE
